import Mathlib

/-!
Verification development for the `vicanso/cod` (elton) request-lifecycle
engine: a shallow embedding of the dispatcher, context lifecycle,
trace recorder, response finalizer, signed-key stores and IP resolution,
together with theorems settling the specification claims.

Conventions of the embedding:
* Go byte slices and `bytes.Buffer` contents are modelled as `String`
  (the repository only ever writes UTF-8 text into them).
* Nil-able Go pointers, maps and slices are modelled as `Option _`.
* `time.Duration` (an `int64` of nanoseconds) is modelled as `Int`.
* The `http.ResponseWriter` is modelled as an event sink
  (`Option (List REvent)`, `none` standing for a nil writer).
-/

/-- Errors.  The repository uses `*hes.Error` values (status/category/message)
and plain Go errors; an error is identified by its value. -/
inductive Err where
  | hes (statusCode : Nat) (category : String) (message : String)
  | plain (message : String)
deriving DecidableEq

/-- `errSignKeyIsNil = hes.New("keys for sign cookie can't be nil")` from
context.go (hes.New produces a 400-status error value). -/
def errSignKeyIsNil : Err := Err.hes 400 "" "keys for sign cookie can't be nil"

/-- Go's `http.ErrNoCookie`, returned by `Request.Cookie` when absent. -/
def ErrNoCookie : Err := Err.plain "http: named cookie not present"

/-- Modelled from the spec: `ErrInvalidRedirect` lives in the repository's
constants file, which is not under `src/`; only its identity matters here. -/
def ErrInvalidRedirect : Err := Err.hes 400 "" "invalid redirect code"

/-- Whitespace set of Go's `strings.TrimSpace` (`unicode.IsSpace`), restricted
to the Latin-1 range; higher Unicode space characters never appear in the
header values the repository trims. -/
def goIsSpace (c : Char) : Bool :=
  c = ' ' || c = '\t' || c = '\n' || c.toNat = 11 || c.toNat = 12 || c = '\r' ||
    c.toNat = 133 || c.toNat = 160

/-- Go `strings.TrimSpace`. -/
def trimSpace (s : String) : String :=
  ⟨((s.data.dropWhile goIsSpace).reverse.dropWhile goIsSpace).reverse⟩

/-- Decimal value of a digit string (used by the IPv4 parser). -/
def decValue (cs : List Char) : Nat :=
  cs.foldl (fun acc c => acc * 10 + (c.toNat - 48)) 0

/-- Split a character list on a separator character (Go `strings.Split`
with a one-character separator). -/
def splitOnCharList (sep : Char) : List Char → List (List Char)
  | [] => [[]]
  | c :: rest =>
    let r := splitOnCharList sep rest
    if c = sep then [] :: r
    else
      match r with
      | [] => [[c]]
      | h :: t => (c :: h) :: t

/-- Go `strings.Split(s, sep)` for a one-character separator. -/
def splitOnChar (sep : Char) (s : String) : List String :=
  (splitOnCharList sep s.data).map (fun cs => ⟨cs⟩)

/-- Split on the two-character separator `::` (left-to-right,
non-overlapping), for the IPv6 parser. -/
def splitDoubleColonList : List Char → List (List Char)
  | [] => [[]]
  | [c] => [[c]]
  | c1 :: c2 :: rest =>
    if c1 = ':' ∧ c2 = ':' then [] :: splitDoubleColonList rest
    else
      match splitDoubleColonList (c2 :: rest) with
      | [] => [[c1]]
      | h :: t => (c1 :: h) :: t

/-- Go `strings.Split(s, "::")`. -/
def splitDoubleColon (s : String) : List String :=
  (splitDoubleColonList s.data).map (fun cs => ⟨cs⟩)

/-- Go `net.ParseIP`, IPv4 dotted-decimal case: exactly four non-empty
all-digit fields, each at most 255; result is the 4-byte form. -/
def parseIPv4 (s : String) : Option (List Nat) :=
  let fields := splitOnChar '.' s
  if fields.length = 4 &&
      fields.all (fun f => !f.isEmpty && f.data.all Char.isDigit && decValue f.data ≤ 255)
  then some (fields.map (fun f => decValue f.data))
  else none

/-- Value of one hexadecimal digit, if any. -/
def hexDigitVal (c : Char) : Option Nat :=
  if '0' ≤ c ∧ c ≤ '9' then some (c.toNat - 48)
  else if 'a' ≤ c ∧ c ≤ 'f' then some (c.toNat - 87)
  else if 'A' ≤ c ∧ c ≤ 'F' then some (c.toNat - 55)
  else none

/-- A 16-bit IPv6 group: one to four hex digits. -/
def parseGroup (s : String) : Option Nat :=
  if s.isEmpty || s.length > 4 then none
  else s.data.foldl
    (fun acc c => match acc, hexDigitVal c with
      | some a, some v => some (a * 16 + v)
      | _, _ => none)
    (some 0)

/-- Big-endian bytes of a 16-bit group. -/
def groupBytes (g : Nat) : List Nat := [g / 256, g % 256]

/-- Colon-separated IPv6 parts to bytes; an embedded dotted-quad IPv4 is
accepted only as the final part (as in Go's parser). -/
def partsToBytes : List String → Option (List Nat)
  | [] => some []
  | [p] =>
    if p.data.contains '.' then parseIPv4 p
    else (parseGroup p).map groupBytes
  | p :: rest =>
    match parseGroup p, partsToBytes rest with
    | some g, some bs => some (groupBytes g ++ bs)
    | _, _ => none

/-- IPv6 parts with no embedded IPv4 (left of a `::` compression). -/
def groupsToBytes : List String → Option (List Nat)
  | [] => some []
  | p :: rest =>
    match parseGroup p, groupsToBytes rest with
    | some g, some bs => some (groupBytes g ++ bs)
    | _, _ => none

/-- Go `net.ParseIP`, IPv6 case: optional single `::` compression, 16-bit hex
groups, optional trailing embedded IPv4; result is the 16-byte form. -/
def parseIPv6 (s : String) : Option (List Nat) :=
  match splitDoubleColon s with
  | [whole] =>
    match partsToBytes (splitOnChar ':' whole) with
    | some bs => if bs.length = 16 then some bs else none
    | none => none
  | [l, r] =>
    let leftParts := if l.isEmpty then [] else splitOnChar ':' l
    let rightParts := if r.isEmpty then [] else splitOnChar ':' r
    match groupsToBytes leftParts, partsToBytes rightParts with
    | some lb, some rb =>
      if lb.length + rb.length < 16 then
        some (lb ++ List.replicate (16 - (lb.length + rb.length)) 0 ++ rb)
      else none
    | _, _ => none
  | _ => none

/-- Go `net.ParseIP`: the first `.` or `:` decides the family; anything else
parses to `nil` (here `none`). -/
def parseIP (s : String) : Option (List Nat) :=
  match s.data.find? (fun c => c = '.' || c = ':') with
  | some '.' => parseIPv4 s
  | some ':' => parseIPv6 s
  | _ => none

/-- Go `IP.To4`: a 16-byte IPv4-mapped address collapses to its 4-byte form. -/
def to4 (b : List Nat) : Option (List Nat) :=
  if b.length = 4 then some b
  else if b.length = 16 && b.take 10 = List.replicate 10 0 &&
      (b.drop 10).take 2 = [255, 255] then
    some (b.drop 12)
  else none

/-- Byte of a CIDR mask with the given number of leading one bits (0..8). -/
def maskByteBits (bits : Nat) : Nat := 255 - (255 >>> bits)

/-- Go `net.CIDRMask` restricted to whole byte strings. -/
def cidrMask (ones len : Nat) : List Nat :=
  (List.range len).map (fun j => maskByteBits (min 8 (ones - 8 * j)))

/-- Go `(*net.IPNet).Contains`: normalise the address with `To4`, require
matching lengths, compare under the mask. -/
def ipnetContains (network : List Nat) (ones : Nat) (ip : List Nat) : Bool :=
  let ip' := match to4 ip with | some x => x | none => ip
  if ip'.length ≠ network.length then false
  else
    let mask := cidrMask ones network.length
    (List.range network.length).all
      (fun i => ip'.getD i 0 &&& mask.getD i 0 = network.getD i 0)

/-- The fixed private/loopback/link-local table built by
`initPrivateIPBlocks` in elton.go: IPv4 loopback, the three RFC1918 blocks,
IPv6 loopback, link-local and unique-local.  (networks are stored in the
normalised form `net.ParseCIDR` produces). -/
def privateIPBlocks : List (List Nat × Nat) :=
  [([127, 0, 0, 0], 8),
   ([10, 0, 0, 0], 8),
   ([172, 16, 0, 0], 12),
   ([192, 168, 0, 0], 16),
   (List.replicate 15 0 ++ [1], 128),
   ([254, 128] ++ List.replicate 14 0, 10),
   ([252] ++ List.replicate 15 0, 7)]

/-- `IsPrivateIP` from elton.go.  `context.go`'s `GetClientIP` calls the
external `intranetip.Is`, whose range table is exactly this fixed table (the
spec's "fixed table of private/loopback/link-local address ranges"); an
unparseable address (`nil`) is contained in no block. -/
def IsPrivateIP (ip : Option (List Nat)) : Bool :=
  match ip with
  | none => false
  | some b => privateIPBlocks.any (fun blk => ipnetContains blk.1 blk.2 b)

/-- An inbound request, restricted to the fields the embedded functions read.
A header access `Header.Get(k)` yields `""` when the header is absent, so the
two headers are plain strings with `""` for "absent". -/
structure Request where
  xForwardedFor : String
  xRealIP : String
  remoteAddr : String
  cookies : List (String × String)
deriving DecidableEq

/-- Index of the last `':'` in a character list. -/
def lastColonIdx (cs : List Char) : Option Nat :=
  ((cs.enum.filter (fun p => p.2 = ':')).map (fun p => p.1)).getLast?

/-- Go `net.SplitHostPort` (host, port), `none` on malformed input; a
bracketed IPv6 host loses its brackets. -/
def splitHostPort (s : String) : Option (String × String) :=
  let cs := s.data
  match lastColonIdx cs with
  | none => none
  | some i =>
    let host := cs.take i
    let port := cs.drop (i + 1)
    if host.head? = some '[' then
      if host.getLast? = some ']' then some (⟨(host.drop 1).dropLast⟩, ⟨port⟩)
      else none
    else if host.contains ':' || host.contains '[' || host.contains ']' ||
        port.contains '[' || port.contains ']' then none
    else some (⟨host⟩, ⟨port⟩)

/-- `GetRemoteAddr` from context.go: the host part of `req.RemoteAddr`,
with the split error discarded (`""` on failure). -/
def GetRemoteAddr (req : Request) : String :=
  match splitHostPort req.remoteAddr with
  | some hp => hp.1
  | none => ""

/-- Go's `<` on strings: byte-wise lexicographic comparison (on valid UTF-8
this is exactly code-point lexicographic order). -/
def charsLess : List Char → List Char → Bool
  | [], [] => false
  | [], _ :: _ => true
  | _ :: _, [] => false
  | c :: cs, d :: ds =>
    if c.toNat < d.toNat then true
    else if d.toNat < c.toNat then false
    else charsLess cs ds

/-- Go string comparison `a < b`. -/
def goStringLess (a b : String) : Bool := charsLess a.data b.data

/-- The descending sort `sort.Sort(sort.Reverse(sort.StringSlice(arr)))`
performed by `GetClientIP`: sorted so that no earlier element is
`goStringLess` than a later one. -/
def sortDesc (l : List String) : List String :=
  List.insertionSort (fun a b : String => goStringLess a b = false) l

/-- The `X-Real-IP` / remote-address fallback shared by both readings of
`GetClientIP` (the tail of the Go function). -/
def clientIPFallback (req : Request) : String :=
  let ip := req.xRealIP
  if ip ≠ "" then
    if !IsPrivateIP (parseIP ip) then ip else GetRemoteAddr req
  else GetRemoteAddr req

/-- `GetClientIP` from context.go: split the forwarding header on commas,
sort the raw entries in descending string order, and return the first
trimmed entry that is not in the private table; otherwise fall back to a
public `X-Real-IP`, then to the transport peer address. -/
def GetClientIP (req : Request) : String :=
  let ip := req.xForwardedFor
  if ip ≠ "" then
    match (sortDesc (splitOnChar ',' ip)).find?
        (fun v => !IsPrivateIP (parseIP (trimSpace v))) with
    | some v => trimSpace v
    | none => clientIPFallback req
  else clientIPFallback req

/-- The claim's reading of `GetClientIP`: scan the forwarded entries in
header order (no sort) and return the first public one. -/
def clientIPHeaderOrder (req : Request) : String :=
  let ip := req.xForwardedFor
  if ip ≠ "" then
    match (splitOnChar ',' ip).find?
        (fun v => !IsPrivateIP (parseIP (trimSpace v))) with
    | some v => trimSpace v
    | none => clientIPFallback req
  else clientIPFallback req

/-- The amended reading of `GetClientIP`: trim every entry of the
descending-sorted raw list, keep the public ones, and take the first,
with the same fallback chain. -/
def clientIPSortedSpec (req : Request) : String :=
  if req.xForwardedFor = "" then clientIPFallback req
  else
    let entries :=
      ((sortDesc (splitOnChar ',' req.xForwardedFor)).map trimSpace).filter
        (fun v => !IsPrivateIP (parseIP v))
    match entries.head? with
    | some v => v
    | none => clientIPFallback req

/-- Response-writer events: what the repository writes to the transport
(`resp.WriteHeader` / `resp.Write`). -/
inductive REvent where
  | writeHeader (statusCode : Nat)
  | write (body : String)
deriving DecidableEq

/-- The dynamic type of `Context.Body` (`interface{}`): absent (`nil`),
a streaming `io.Reader` with the bytes it will yield, or any other value. -/
inductive BodyKind where
  | reader (content : String)
  | value
deriving DecidableEq

/-- The server back-reference visible from a `Context`: the `SignedKeys`
generator is represented by the key sequence its `GetKeys` returns
(`none` = nil generator). -/
structure EltonCfg where
  SignedKeys : Option (List String)
deriving DecidableEq

/-- `ReuseContextEnabled` (zero value of the reuse flag). -/
def ReuseContextEnabled : Nat := 0

/-- `ReuseContextDisabled`. -/
def ReuseContextDisabled : Nat := 1

/-- The elton `Context` (context.go).  The `Next` continuation is a function
value in Go; only its presence (nil / set) is recorded so that contexts stay
comparable field by field.  `m` is the generic store, `Headers` the response
header map (nil-able), `Response` the transport sink. -/
structure Context where
  Request : Option Request
  Response : Option (List REvent)
  Headers : Option (List (String × String))
  Committed : Bool
  ID : String
  Route : String
  Next : Option Unit
  Params : Option (List (String × String))
  StatusCode : Nat
  Body : Option BodyKind
  BodyBuffer : Option String
  RequestBody : Option String
  m : Option (List (String × String))
  realIP : String
  clientIP : String
  elton : Option EltonCfg
  reuseStatus : Nat
  cacheQuery : Option (List (String × List String))
deriving DecidableEq

/-- The zero value `&Context{}` produced by the pool's `New`. -/
def Context.empty : Context :=
  { Request := none
    Response := none
    Headers := none
    Committed := false
    ID := ""
    Route := ""
    Next := none
    Params := none
    StatusCode := 0
    Body := none
    BodyBuffer := none
    RequestBody := none
    m := none
    realIP := ""
    clientIP := ""
    elton := none
    reuseStatus := ReuseContextEnabled
    cacheQuery := none }

/-- `Context.Reset` from context.go: clears every field. -/
def Context.Reset (c : Context) : Context :=
  { c with
    Request := none
    Response := none
    Headers := none
    Committed := false
    ID := ""
    Route := ""
    Next := none
    Params := none
    StatusCode := 0
    Body := none
    BodyBuffer := none
    RequestBody := none
    m := none
    realIP := ""
    clientIP := ""
    elton := none
    reuseStatus := ReuseContextEnabled
    cacheQuery := none }

/-- Header names used by the embedded functions (the repository keeps them
in a constants file that is not under `src/`; the names are the standard
HTTP ones the spec and README quote). -/
def HeaderSetCookie : String := "Set-Cookie"

/-- `Content-Length` header name. -/
def HeaderContentLength : String := "Content-Length"

/-- `ETag` header name. -/
def HeaderETag : String := "ETag"

/-- `Last-Modified` header name. -/
def HeaderLastModified : String := "Last-Modified"

/-- `Content-Encoding` header name. -/
def HeaderContentEncoding : String := "Content-Encoding"

/-- `Location` header name. -/
def HeaderLocation : String := "Location"

/-- `SignedCookieSuffix` from context.go. -/
def SignedCookieSuffix : String := ".sig"

/-- `http.Header.Set` on an association list (replace every binding of the
key); the empty value deletes, as in `Context.SetHeader`. -/
def setHeaderList (h : List (String × String)) (k v : String) :
    List (String × String) :=
  if v = "" then h.filter (fun p => p.1 ≠ k)
  else h.filter (fun p => p.1 ≠ k) ++ [(k, v)]

/-- `Context.SetHeader`: `""` deletes, otherwise replaces (a nil header map
is left untouched where Go would panic; the dispatcher always installs one). -/
def Context.SetHeader (c : Context) (k v : String) : Context :=
  { c with Headers := c.Headers.map (fun h => setHeaderList h k v) }

/-- `Context.AddHeader`: appends a value for the key. -/
def Context.AddHeader (c : Context) (k v : String) : Context :=
  { c with Headers := c.Headers.map (fun h => h ++ [(k, v)]) }

/-- Append a `WriteHeader` call to the transport sink. -/
def respWriteHeader (c : Context) (code : Nat) : Context :=
  { c with Response := c.Response.map (fun ev => ev ++ [REvent.writeHeader code]) }

/-- Append a `Write` call to the transport sink. -/
def respWrite (c : Context) (body : String) : Context :=
  { c with Response := c.Response.map (fun ev => ev ++ [REvent.write body]) }

/-- `Context.IsReaderBody`: the body is non-nil and an `io.Reader`. -/
def Context.IsReaderBody (c : Context) : Bool :=
  match c.Body with
  | some (BodyKind.reader _) => true
  | _ => false

/-- `Context.ClientIP`: memoized `GetClientIP` (a nil request, which would
make Go panic, yields the empty string; the dispatcher always fills the
request first). -/
def Context.ClientIP (c : Context) : Context × String :=
  if c.clientIP ≠ "" then (c, c.clientIP)
  else
    match c.Request with
    | some req => ({ c with clientIP := GetClientIP req }, GetClientIP req)
    | none => (c, "")

/-- Modelled from the spec: `MinRedirectCode` lives in the constants file
absent from `src/` (300 upstream); the redirect claim only depends on the
comparison against the bound, not on its value. -/
def MinRedirectCode : Nat := 300

/-- Modelled from the spec: `MaxRedirectCode` (308 upstream). -/
def MaxRedirectCode : Nat := 308

/-- `Context.Redirect` from context.go: out-of-range codes fail before any
mutation; otherwise commit with the code, clear both body fields and let
`http.Redirect` set the `Location` header and write the status. -/
def Context.Redirect (c : Context) (code : Nat) (url : String) :
    Context × Option Err :=
  if code < MinRedirectCode ∨ code > MaxRedirectCode then
    (c, some ErrInvalidRedirect)
  else
    let c1 := { c with
      StatusCode := code
      Committed := true
      Body := none
      BodyBuffer := none }
    let c2 := Context.SetHeader c1 HeaderLocation url
    (respWriteHeader c2 code, none)

/-- An `http.Cookie`, restricted to the fields the repository reads. -/
structure Cookie where
  Name : String
  Value : String
deriving DecidableEq

/-- `cookie.String()` (attributes beyond name/value are not modelled). -/
def Cookie.string (ck : Cookie) : String := ck.Name ++ "=" ++ ck.Value

/-- `cloneCookie` from context.go (restricted to the modelled fields). -/
def cloneCookie (ck : Cookie) : Cookie := { Name := ck.Name, Value := ck.Value }

/-- `Context.Cookie` from context.go: look the cookie up in the request
(`none` models the `http.ErrNoCookie` failure; named `reqCookie` because the
method name would shadow the `Cookie` type inside the namespace). -/
def Context.reqCookie (c : Context) (name : String) : Option Cookie :=
  match c.Request with
  | none => none
  | some req =>
    (req.cookies.find? (fun p => p.1 == name)).map
      (fun p => { Name := p.1, Value := p.2 })

/-- `Context.AddCookie`: append the serialized cookie to `Set-Cookie`. -/
def Context.AddCookie (c : Context) (ck : Cookie) : Context × Option Err :=
  (Context.AddHeader c HeaderSetCookie (Cookie.string ck), none)

/-- `Context.getKeys`: nil server back-reference or nil generator yields the
nil sequence; otherwise the generator's `GetKeys`. -/
def Context.getKeys (c : Context) : List String :=
  match c.elton with
  | none => []
  | some e =>
    match e.SignedKeys with
    | none => []
    | some ks => ks

/-- `Context.addSigCookie`: clone with the `.sig` name; with no keys return
silently before adding anything, else sign with the external keygrip digest
(passed in as `sig`, the MAC of the external library). -/
def Context.addSigCookie (c : Context) (sig : List String → String → String)
    (ck : Cookie) : Context × Option Err :=
  let sc := cloneCookie ck
  let sc := { sc with Name := sc.Name ++ SignedCookieSuffix }
  let keys := Context.getKeys c
  if keys.length = 0 then (c, none)
  else
    let sc := { sc with Value := sig keys sc.Value }
    Context.AddCookie c sc

/-- `Context.AddSignedCookie`: plain cookie first, then the companion. -/
def Context.AddSignedCookie (c : Context)
    (sig : List String → String → String) (ck : Cookie) :
    Context × Option Err :=
  match Context.AddCookie c ck with
  | (c1, some e) => (c1, some e)
  | (c1, none) => Context.addSigCookie c1 sig ck

/-- `Context.GetSignedCookie`: (cookie, matching key index, error); the
external `keygrip.Index` is passed in as `kgIndex`. -/
def Context.GetSignedCookie (c : Context)
    (kgIndex : List String → String → String → Int) (name : String) :
    Option Cookie × Int × Option Err :=
  match Context.reqCookie c name with
  | none => (none, -1, some ErrNoCookie)
  | some cookie =>
    let keys := Context.getKeys c
    if keys.length = 0 then (some cookie, -1, some errSignKeyIsNil)
    else
      match Context.reqCookie c (name ++ SignedCookieSuffix) with
      | none => (none, -1, some ErrNoCookie)
      | some sc => (some cookie, kgIndex keys cookie.Value sc.Value, none)

/-- `SimpleSignedKeys` (signed_keys.go): unsynchronized variant. -/
structure SimpleSignedKeys where
  keys : List String
deriving DecidableEq

/-- `SimpleSignedKeys.GetKeys`. -/
def SimpleSignedKeys.GetKeys (sk : SimpleSignedKeys) : List String := sk.keys

/-- `SimpleSignedKeys.SetKeys`. -/
def SimpleSignedKeys.SetKeys (sk : SimpleSignedKeys) (ks : List String) :
    SimpleSignedKeys :=
  { sk with keys := ks }

/-- `RWMutexSignedKeys` (signed_keys.go): the mutex guards the same plain
slice field; lock and unlock are invisible in the sequential embedding. -/
structure RWMutexSignedKeys where
  keys : List String
deriving DecidableEq

/-- `RWMutexSignedKeys.GetKeys` (under `RLock`). -/
def RWMutexSignedKeys.GetKeys (sk : RWMutexSignedKeys) : List String := sk.keys

/-- `RWMutexSignedKeys.SetKeys` (under `Lock`). -/
def RWMutexSignedKeys.SetKeys (sk : RWMutexSignedKeys) (ks : List String) :
    RWMutexSignedKeys :=
  { sk with keys := ks }

/-- `AtomicSignedKeys` (signed_keys.go): a nil-able pointer to a whole
slice, swapped atomically; `none` is the initial nil pointer. -/
structure AtomicSignedKeys where
  keys : Option (List String)
deriving DecidableEq

/-- `AtomicSignedKeys.GetKeys`: dereference the atomically loaded pointer
(`none` models the nil-pointer panic before any `SetKeys`). -/
def AtomicSignedKeys.GetKeys (sk : AtomicSignedKeys) : Option (List String) :=
  sk.keys

/-- `AtomicSignedKeys.SetKeys`: reslice (`keys[0:]`) and publish a pointer
to the fresh slice header. -/
def AtomicSignedKeys.SetKeys (sk : AtomicSignedKeys) (ks : List String) :
    AtomicSignedKeys :=
  { sk with keys := some (ks.drop 0) }

/-- Parameter validator (`Validator func(value string) error`). -/
def Validator := String → Option Err

/-- The observable behaviour of a Go handler: return (with an optional
error), set the committed flag (every write to `Committed` in the
repository sets it to `true`), set the status code, body or body buffer,
or call the `c.Next()` continuation and continue from its result. -/
inductive HProg where
  | ret (e : Option Err)
  | commit (k : HProg)
  | setStatus (code : Nat) (k : HProg)
  | setBody (b : Option BodyKind) (k : HProg)
  | setBodyBuffer (b : Option String) (k : HProg)
  | next (k : Option Err → HProg)

/-- The per-route data the `Handle` closure captures: the server's global
middlewares (`d.Middlewares`), the route's handler list, the nil-able
validator map (`d.validators`) and the nil-able custom `d.ErrorHandler`. -/
structure Chain where
  mids : List HProg
  handlers : List HProg
  validators : Option (List (String × Validator))
  errorHandler : Option (Context → Err → Context)

/-- `maxMid = len(mids)`. -/
def Chain.maxMid (ch : Chain) : Nat := ch.mids.length

/-- `maxNext = maxMid + len(handlerList)`: G global plus R route handlers. -/
def Chain.maxNext (ch : Chain) : Nat := ch.mids.length + ch.handlers.length

/-- Chain-execution state: the context, the captured cursor (`index`,
starting at −1) and an instrumentation log of the indices of the handlers
that have been invoked (in invocation order). -/
structure ChainSt where
  ctx : Context
  index : Int
  log : List Int
deriving DecidableEq

/-- `d.validators[key]` lookup. -/
def lookupValidator (vs : List (String × Validator)) (k : String) :
    Option Validator :=
  (vs.find? (fun p => p.1 == k)).map (fun p => p.2)

/-- The validator loop of the `Next` closure: iterate over the bound route
parameters and return the first validation error (Go iterates the `Params`
map in unspecified order; the embedding fixes the association-list order,
which is one of the admissible executions). -/
def firstValidatorError (vs : List (String × Validator)) :
    List (String × String) → Option Err
  | [] => none
  | (k, v) :: rest =>
    match lookupValidator vs k with
    | some f =>
      match f v with
      | some e => some e
      | none => firstValidatorError vs rest
    | none => firstValidatorError vs rest

/-- Handler selection of the `Next` closure: route handlers for
`index ≥ maxMid`, global middlewares below (the guards of `runStep` keep
the index in range, so the `getD` default is never reached on the states
the dispatcher produces). -/
def chainHandlerAt (ch : Chain) (i : Int) : HProg :=
  if i ≥ (ch.maxMid : Int) then ch.handlers.getD (i - (ch.maxMid : Int)).toNat (.ret none)
  else ch.mids.getD i.toNat (.ret none)

/-- One interpreter for the mutually recursive pair
{handler body, `c.Next()` closure} from `Elton.Handle`, defunctionalised
over a fuel bound (the shared mutable cursor lives in the state, exactly as
the captured `index` variable does in Go).  `none` runs the `Next` closure:
committed short-circuit, cursor increment, `maxNext` overflow guard,
last-handler validator pass, handler invocation.  `some p` runs a handler
body.  Fuel only limits the recursion depth; every equation below is
fuel-independent once the guard that fires is reached.  Trace recording
changes no control flow (the handler is invoked either way) and is modelled
separately by `traceDerive`. -/
def runStep : Nat → Chain → Option HProg → ChainSt → ChainSt × Option Err
  | 0, _, _, st => (st, none)
  | Nat.succ f, ch, some p, st =>
    match p with
    | .ret e => (st, e)
    | .commit k => runStep f ch (some k) { st with ctx := { st.ctx with Committed := true } }
    | .setStatus n k => runStep f ch (some k) { st with ctx := { st.ctx with StatusCode := n } }
    | .setBody b k => runStep f ch (some k) { st with ctx := { st.ctx with Body := b } }
    | .setBodyBuffer b k => runStep f ch (some k) { st with ctx := { st.ctx with BodyBuffer := b } }
    | .next k =>
      let r := runStep f ch none st
      runStep f ch (some (k r.2)) r.1
  | Nat.succ f, ch, none, st =>
    if st.ctx.Committed then (st, none)
    else
      let i := st.index + 1
      let st1 := { st with index := i }
      if i ≥ (ch.maxNext : Int) then (st1, none)
      else
        match (if i = (ch.maxNext : Int) - 1 ∧ ch.validators.isSome
               then firstValidatorError (ch.validators.getD []) (st1.ctx.Params.getD [])
               else none) with
        | some e => (st1, some e)
        | none =>
          runStep f ch (some (chainHandlerAt ch i)) { st1 with log := st1.log ++ [i] }

/-- The `c.Next()` closure. -/
def runNext (fuel : Nat) (ch : Chain) (st : ChainSt) : ChainSt × Option Err :=
  runStep fuel ch none st

/-- Invocation of one handler body. -/
def runH (fuel : Nat) (ch : Chain) (p : HProg) (st : ChainSt) :
    ChainSt × Option Err :=
  runStep fuel ch (some p) st

/-- Which finalizer branch runs for an uncommitted context, read off the
decision table: outstanding error → error mapper; buffered body → buffered;
reader body → stream; otherwise status only. -/
inductive FBranch where
  | errorMapper
  | buffered
  | reader
  | statusOnly
deriving DecidableEq

/-- The branch the finalizer's `if` cascade selects (for an uncommitted
context). -/
def branchSelect (c : Context) (e : Option Err) : FBranch :=
  if e.isSome then FBranch.errorMapper
  else if c.BodyBuffer.isSome then FBranch.buffered
  else if Context.IsReaderBody c then FBranch.reader
  else FBranch.statusOnly

/-- The header-clearing loop of `Elton.Error`: drop the cache validators
before writing an error body. -/
def clearErrHeaders (c : Context) : Context :=
  [HeaderETag, HeaderLastModified, HeaderContentEncoding,
    HeaderContentLength].foldl (fun acc k => Context.SetHeader acc k "") c

/-- The default error mapping of `Elton.Error`: an `hes.Error` carries its
own status, anything else maps to 500; the message is written as the body. -/
def defaultErrorWrite (c : Context) (e : Err) : Context :=
  match e with
  | Err.hes st _ msg => respWrite (respWriteHeader c st) msg
  | Err.plain msg => respWrite (respWriteHeader c 500) msg

/-- `(*Context).Pipe` body for the finalizer's reader branch: mark committed
and copy the reader to the response. -/
def pipeReaderBody (c : Context) : Context :=
  match c.Body with
  | some (BodyKind.reader s) => respWrite { c with Committed := true } s
  | _ => { c with Committed := true }

/-- The tail of the route closure in `Elton.Handle` (lines after the chain
unwinds): if the context is already committed nothing runs; otherwise
exactly one decision-table branch runs (error mapper / buffered body /
reader body / status only); in every case the committed flag is left true.
The emitted error/trace listener calls are not modelled (they do not touch
the context).  The returned `Option FBranch` is instrumentation naming the
branch that ran (`none` = already committed). -/
def finalize (ch : Chain) (c : Context) (e : Option Err) :
    Context × Option FBranch :=
  if c.Committed then ({ c with Committed := true }, none)
  else
    match e with
    | some err =>
      let c1 := clearErrHeaders c
      let c2 :=
        match ch.errorHandler with
        | some f => f c1 err
        | none => defaultErrorWrite c1 err
      ({ c2 with Committed := true }, some FBranch.errorMapper)
    | none =>
      let c1 :=
        match c.BodyBuffer with
        | some buf => Context.SetHeader c HeaderContentLength (toString buf.length)
        | none => c
      let c2 := if c1.StatusCode ≠ 0 then respWriteHeader c1 c1.StatusCode else c1
      match c.BodyBuffer with
      | some buf => ({ respWrite c2 buf with Committed := true }, some FBranch.buffered)
      | none =>
        if Context.IsReaderBody c2 then
          ({ pipeReaderBody c2 with Committed := true }, some FBranch.reader)
        else ({ c2 with Committed := true }, some FBranch.statusOnly)

/-- The whole route closure of `Elton.Handle` from the initial `c.Next()`
call onwards: run the chain from cursor −1, then finalize.  Returns the
final context, the finalizer branch, the chain's error and the invocation
log. -/
def handleRoute (fuel : Nat) (ch : Chain) (c0 : Context) :
    Context × Option FBranch × Option Err × List Int :=
  let r := runNext fuel ch { ctx := c0, index := -1, log := [] }
  let fin := finalize ch r.1.ctx r.2
  (fin.1, fin.2, r.2, r.1.log)

/-- `TraceInfo`: one handler's {name, duration} record (`time.Duration`
nanoseconds as `Int`). -/
structure TraceInfo where
  Name : String
  Duration : Int
deriving DecidableEq

/-- The post-chain subtraction pass of `Elton.Handle`: a left-to-right pass
over the records in which every record except the last has the (still raw)
duration of its immediate successor subtracted, turning cumulative durations
into exclusive self-times; the last record keeps its cumulative value. -/
def traceDerive : List TraceInfo → List TraceInfo
  | [] => []
  | [t] => [t]
  | t :: u :: rest =>
    { t with Duration := t.Duration - u.Duration } :: traceDerive (u :: rest)

/-- `getMs` from elton.go: milliseconds with at most two decimal digits,
truncated.  For `ns ≥ 1000` the Go `int` arithmetic is on a positive value,
so `Int.toNat` followed by `Nat` division is exact. -/
def getMs (ns : Int) : String :=
  if ns < 1000 then "0"
  else
    let n := ns.toNat
    let ms := n / 1000000
    let msStr := toString ms
    let offset := n % 1000000 / 1000
    if offset < 10 then msStr
    else if offset < 100 then msStr ++ ".0" ++ toString (offset / 10)
    else msStr ++ "." ++ toString (offset / 10)

/-- The spec's wording of `getMs`: below one microsecond render `"0"`;
otherwise the whole milliseconds, followed — only when the truncated
hundredths-of-a-millisecond part is non-zero — by a dot and that part
zero-padded to two digits. -/
def getMsSpec (ns : Int) : String :=
  if ns < 1000 then "0"
  else
    let n := ns.toNat
    let whole := toString (n / 1000000)
    let hundredths := n % 1000000 / 10000
    if hundredths = 0 then whole
    else
      whole ++ "." ++
        (if hundredths < 10 then "0" ++ toString hundredths
         else toString hundredths)

/-- Modelled from the spec: the `ServerTimingDur` byte constant (the token
format `{prefix}{index};dur={durationMs};desc="{name}"` fixes it). -/
def ServerTimingDur : String := ";dur="

/-- Modelled from the spec: the `ServerTimingDesc` byte constant. -/
def ServerTimingDesc : String := ";desc=\""

/-- Modelled from the spec: the `ServerTimingEnd` byte constant. -/
def ServerTimingEnd : String := "\""

/-- The builder loop of `TraceInfos.ServerTiming`: one token per record,
a comma after every token but the last (`size` is the total record count,
`i` the index of the head record). -/
def serverTimingAux (pfx : String) (size : Nat) : Nat → List TraceInfo → String
  | _, [] => ""
  | i, t :: rest =>
    pfx ++ toString i ++ ServerTimingDur ++ getMs t.Duration ++
      ServerTimingDesc ++ t.Name ++ ServerTimingEnd ++
      (if i ≠ size - 1 then "," else "") ++
      serverTimingAux pfx size (i + 1) rest

/-- `TraceInfos.ServerTiming` from elton.go: empty input yields the empty
string, otherwise the builder loop over all records. -/
def ServerTiming (traceInfos : List TraceInfo) (pfx : String) : String :=
  if traceInfos.length = 0 then ""
  else serverTimingAux pfx traceInfos.length 0 traceInfos

/-- One `{prefix}{index};dur={durationMs};desc="{name}"` token, as the spec
words it. -/
def serverTimingToken (pfx : String) (i : Nat) (t : TraceInfo) : String :=
  pfx ++ toString i ++ ";dur=" ++ getMsSpec t.Duration ++ ";desc=\"" ++
    t.Name ++ "\""

/-- Comma-join of a token list. -/
def joinComma : List String → String
  | [] => ""
  | [s] => s
  | s :: rest => s ++ "," ++ joinComma rest

/-- The spec's wording of the Server-Timing encoding: the comma-joined
sequence of per-record tokens in order. -/
def ServerTimingSpec (traceInfos : List TraceInfo) (pfx : String) : String :=
  joinComma ((traceInfos.enum).map (fun p => serverTimingToken pfx p.1 p.2))

/-- Concrete fixture: a request carrying the cookie `jt=abc` (for the C9
witness). -/
def reqW : Request :=
  { xForwardedFor := "", xRealIP := "", remoteAddr := "", cookies := [("jt", "abc")] }

/-- Concrete fixture: a context with an installed (empty) header map, the
fixture request, and no server back-reference. -/
def ctxW : Context :=
  { Context.empty with Headers := some [], Request := some reqW }

/-- Concrete fixture refuting header-order scanning: all three forwarded
entries, split on commas, are `"10.0.0.1"`, `" 2.2.2.2"`, `" 8.8.8.8"`; in
header order the first public entry is `2.2.2.2`, but the reverse sort puts
`" 8.8.8.8"` before `" 2.2.2.2"`. -/
def reqCx : Request :=
  { xForwardedFor := "10.0.0.1, 2.2.2.2, 8.8.8.8", xRealIP := "", remoteAddr := "192.0.2.9:1234", cookies := [] }

/-- Concrete fixture: the spec scenario `"10.0.0.5, 8.8.8.8"`. -/
def reqScenA : Request :=
  { xForwardedFor := "10.0.0.5, 8.8.8.8", xRealIP := "", remoteAddr := "192.0.2.9:1234", cookies := [] }

/-- Concrete fixture: the spec scenario `"10.0.0.5"` alone. -/
def reqScenB : Request :=
  { xForwardedFor := "10.0.0.5", xRealIP := "", remoteAddr := "192.0.2.9:1234", cookies := [] }

/-- The empty chain (no global middlewares, no route handlers, no
validators, default error handler). -/
def ch0 : Chain :=
  { mids := [], handlers := [], validators := none, errorHandler := none }

/-- A chain state whose response is already committed. -/
def stCommitted : ChainSt :=
  { ctx := { Context.empty with Committed := true }, index := 5, log := [] }

/-- An uncommitted chain state whose cursor is already past every handler
of `ch0`. -/
def stOverflow : ChainSt :=
  { ctx := Context.empty, index := 3, log := [] }

/-- The digits-only validator of the spec's route-parameter scenario. -/
def digitsValidator : Validator := fun v =>
  if !v.isEmpty && v.data.all Char.isDigit then none
  else some (Err.plain "id should be numbers")

/-- The final handler of the scenario (a plain 204 response). -/
def finalHandlerScen : HProg := HProg.setStatus 204 (HProg.ret none)

/-- The scenario chain for route `/users/:id`: one route handler and a
digits-only validator bound to `id`. -/
def chScen : Chain :=
  { mids := [], handlers := [finalHandlerScen],
    validators := some [("id", digitsValidator)], errorHandler := none }

/-- Context for request path `/users/42` (parameter `id = "42"`). -/
def ctx42 : Context :=
  { Context.empty with Params := some [("id", "42")], Headers := some [], Response := some [] }

/-- Context for request path `/users/ab` (parameter `id = "ab"`). -/
def ctxAb : Context :=
  { Context.empty with Params := some [("id", "ab")], Headers := some [], Response := some [] }

/-- C8: `Context.Reset` clears every field to its zero/empty value, so a
reset context equals `&Context{}`, the freshly constructed pool value,
field by field: nil request/response/headers, committed false, empty
id/route, nil continuation/params, zero status, nil body/body-buffer/
request-body, empty store, empty cached IPs, nil server back-reference,
reuse flag back to reusable, no cached query. -/
theorem C8_reset_is_fresh (c : Context) : Context.Reset c = Context.empty := rfl

/-- C7: for each of the three signed-key generators, `GetKeys` right after
`SetKeys ks` returns exactly `ks` (for the atomic variant: the dereference
of the freshly published slice pointer), never a truncated or mixed
sequence. -/
theorem C7_signed_keys_roundtrip (sk1 : SimpleSignedKeys)
    (sk2 : RWMutexSignedKeys) (sk3 : AtomicSignedKeys) (ks : List String) :
    SimpleSignedKeys.GetKeys (SimpleSignedKeys.SetKeys sk1 ks) = ks
    ∧ RWMutexSignedKeys.GetKeys (RWMutexSignedKeys.SetKeys sk2 ks) = ks
    ∧ AtomicSignedKeys.GetKeys (AtomicSignedKeys.SetKeys sk3 ks) = some ks := by
  refine ⟨rfl, rfl, ?_⟩
  simp [AtomicSignedKeys.GetKeys, AtomicSignedKeys.SetKeys]

/-- C10: `Redirect` fails with `ErrInvalidRedirect` exactly for codes
outside `[MinRedirectCode, MaxRedirectCode]`, leaving the context
untouched; for in-range codes it returns no error, sets the status code,
commits, and clears `Body` and `BodyBuffer`. -/
theorem C10_redirect_range (c : Context) (code : Nat) (url : String) :
    ((code < MinRedirectCode ∨ code > MaxRedirectCode) →
      Context.Redirect c code url = (c, some ErrInvalidRedirect))
    ∧ (MinRedirectCode ≤ code → code ≤ MaxRedirectCode →
        (Context.Redirect c code url).2 = none
        ∧ (Context.Redirect c code url).1.StatusCode = code
        ∧ (Context.Redirect c code url).1.Committed = true
        ∧ (Context.Redirect c code url).1.Body = none
        ∧ (Context.Redirect c code url).1.BodyBuffer = none) := by
  constructor
  · intro h
    simp [Context.Redirect, h]
  · intro h1 h2
    have h : ¬(code < MinRedirectCode ∨ code > MaxRedirectCode) := by omega
    simp [Context.Redirect, h, respWriteHeader, Context.SetHeader]

/-- Witness for C10: code 299 is rejected with the context unchanged, code
302 commits with status 302. -/
theorem C10_redirect_range_witness :
    Context.Redirect Context.empty 299 "/login" =
      (Context.empty, some ErrInvalidRedirect)
    ∧ (Context.Redirect Context.empty 302 "/login").2 = none
    ∧ (Context.Redirect Context.empty 302 "/login").1.Committed = true :=
  ⟨(C10_redirect_range Context.empty 299 "/login").1 (by decide),
   ((C10_redirect_range Context.empty 302 "/login").2 (by decide) (by decide)).1,
   ((C10_redirect_range Context.empty 302 "/login").2 (by decide)
     (by decide)).2.2.1⟩

/-- C9: with no signing keys available (`getKeys` empty, which covers a nil
server back-reference, a nil `SignedKeys` generator and an empty key
sequence — the last two conjuncts), `AddSignedCookie` appends only the
plain cookie to `Set-Cookie` and reports no error, while `GetSignedCookie`
on a present cookie fails with `errSignKeyIsNil`. -/
theorem C9_signed_cookie_no_keys
    (c : Context) (hs : List (String × String)) (ck : Cookie)
    (sig : List String → String → String)
    (kgIndex : List String → String → String → Int)
    (name v : String) (req : Request)
    (hk : Context.getKeys c = [])
    (hh : c.Headers = some hs) :
    Context.AddSignedCookie c sig ck =
      ({ c with Headers := some (hs ++ [(HeaderSetCookie, Cookie.string ck)]) },
        none)
    ∧ (c.Request = some req →
        req.cookies.find? (fun p => p.1 == name) = some (name, v) →
        Context.GetSignedCookie c kgIndex name =
          (some { Name := name, Value := v }, -1, some errSignKeyIsNil))
    ∧ (∀ c' : Context, c'.elton = none → Context.getKeys c' = [])
    ∧ (∀ (c' : Context) (e : EltonCfg), c'.elton = some e →
        e.SignedKeys = none → Context.getKeys c' = []) := by
  refine ⟨?_, ?_, ?_, ?_⟩
  · simp only [Context.AddSignedCookie, Context.AddCookie,
      Context.addSigCookie, Context.AddHeader, hh, Option.map_some]
    have hk' : Context.getKeys
        { c with Headers := some (hs ++ [(HeaderSetCookie, Cookie.string ck)]) } = [] := hk
    simp [hk']
  · intro hreq hfind
    simp [Context.GetSignedCookie, Context.reqCookie, hreq, hfind, hk]
  · intro c' h
    simp [Context.getKeys, h]
  · intro c' e h1 h2
    simp [Context.getKeys, h1, h2]

/-- Witness for C9 at a concrete context with a nil server back-reference
and the cookie `jt=abc` present on the request. -/
theorem C9_signed_cookie_no_keys_witness :
    Context.AddSignedCookie ctxW (fun _ v => v) { Name := "jt", Value := "abc" } =
      ({ ctxW with Headers := some [(HeaderSetCookie, "jt=abc")] }, none)
    ∧ Context.GetSignedCookie ctxW (fun _ _ _ => 0) "jt" =
      (some { Name := "jt", Value := "abc" }, -1, some errSignKeyIsNil) := by
  refine ⟨?_, ?_⟩
  · exact (C9_signed_cookie_no_keys ctxW [] { Name := "jt", Value := "abc" }
      (fun _ v => v) (fun _ _ _ => 0) "jt" "abc" reqW rfl rfl).1
  · exact (C9_signed_cookie_no_keys ctxW [] { Name := "jt", Value := "abc" }
      (fun _ v => v) (fun _ _ _ => 0) "jt" "abc" reqW rfl rfl).2.1 rfl (by decide)

/-- The subtraction pass telescopes: the exclusive self-times always sum to
the first record's original cumulative duration. -/
theorem traceDerive_sum (t : TraceInfo) (rest : List TraceInfo) :
    ((traceDerive (t :: rest)).map (fun u => u.Duration)).sum = t.Duration := by
  induction rest generalizing t with
  | nil => simp [traceDerive]
  | cons u rs ih =>
    simp only [traceDerive, List.map_cons, List.sum_cons, ih u]
    ring

/-- With nested (antitone) cumulative durations that are nonnegative, every
derived self-time is nonnegative. -/
theorem traceDerive_nonneg (t : TraceInfo) (rest : List TraceInfo)
    (h0 : ∀ u ∈ t :: rest, 0 ≤ u.Duration)
    (hc : List.Chain' (fun a b => b.Duration ≤ a.Duration) (t :: rest)) :
    ∀ u ∈ traceDerive (t :: rest), 0 ≤ u.Duration := by
  induction rest generalizing t with
  | nil =>
    intro u hu
    simp only [traceDerive, List.mem_singleton] at hu
    exact hu ▸ h0 t (by simp)
  | cons w rs ih =>
    intro u hu
    rw [List.chain'_cons] at hc
    simp only [traceDerive, List.mem_cons] at hu
    rcases hu with h | h
    · have : w.Duration ≤ t.Duration := hc.1
      simp [h]
      omega
    · exact ih w (fun x hx => h0 x (List.mem_cons_of_mem t hx)) hc.2 u h

/-- C5: for a fully recorded traced chain, whose raw cumulative durations
are nonnegative and antitone (each at least the next, records being
nested), the post-chain subtraction pass `traceDerive` yields exclusive
self-times that sum to the first record's original cumulative duration,
with no self-time negative. -/
theorem C5_trace_subtraction (t : TraceInfo) (rest : List TraceInfo)
    (h0 : ∀ u ∈ t :: rest, 0 ≤ u.Duration)
    (hc : List.Chain' (fun a b => b.Duration ≤ a.Duration) (t :: rest)) :
    ((traceDerive (t :: rest)).map (fun u => u.Duration)).sum = t.Duration
    ∧ ∀ u ∈ traceDerive (t :: rest), 0 ≤ u.Duration :=
  ⟨traceDerive_sum t rest, traceDerive_nonneg t rest h0 hc⟩

/-- Witness for C5 on the nested record list `[("m", 5), ("h", 3)]`. -/
theorem C5_trace_subtraction_witness :
    ((traceDerive [⟨"m", 5⟩, ⟨"h", 3⟩]).map (fun u => u.Duration)).sum = 5
    ∧ ∀ u ∈ traceDerive [⟨"m", 5⟩, ⟨"h", 3⟩], 0 ≤ u.Duration :=
  C5_trace_subtraction ⟨"m", 5⟩ [⟨"h", 3⟩] (by decide)
    (by simp [List.chain'_cons, List.chain'_singleton])

/-- `getMs` coincides with the spec's wording: truncation to hundredths of
a millisecond, zero-padded to two digits, omitted when zero. -/
theorem getMs_eq_getMsSpec (ns : Int) : getMs ns = getMsSpec ns := by
  unfold getMs getMsSpec
  split
  · rfl
  · have hdd : ns.toNat % 1000000 / 1000 / 10 = ns.toNat % 1000000 / 10000 := by
      omega
    by_cases h1 : ns.toNat % 1000000 / 1000 < 10
    · have hz : ns.toNat % 1000000 / 10000 = 0 := by omega
      simp [h1, hz]
    · by_cases h2 : ns.toNat % 1000000 / 1000 < 100
      · have hnz : ¬ ns.toNat % 1000000 / 10000 = 0 := by omega
        have hlt : ns.toNat % 1000000 / 10000 < 10 := by omega
        simp only [h1, h2, if_false, ite_false, ite_true, hdd]
        rw [if_neg hnz, if_pos hlt]
        have hx : ∀ x : String, (".0" : String) ++ x = "." ++ ("0" ++ x) :=
          fun x => rfl
        rw [String.append_assoc, hx, ← String.append_assoc]
      · have hnz : ¬ ns.toNat % 1000000 / 10000 = 0 := by omega
        have hge : ¬ ns.toNat % 1000000 / 10000 < 10 := by omega
        simp only [h1, h2, if_false, ite_false, ite_true, hdd]
        rw [if_neg hnz, if_neg hge]

/-- The builder loop produces exactly the comma-join of the per-record
tokens (with `size` the total record count). -/
theorem serverTimingAux_eq_joinComma (pfx : String) :
    ∀ (l : List TraceInfo) (i size : Nat), size = i + l.length →
      serverTimingAux pfx size i l =
        joinComma ((List.enumFrom i l).map
          (fun p => serverTimingToken pfx p.1 p.2)) := by
  intro l
  induction l with
  | nil => intro i size _; rfl
  | cons t rest ih =>
    intro i size hsize
    cases rest with
    | nil =>
      have hi : ¬ i ≠ size - 1 := by simp at hsize ⊢; omega
      simp [serverTimingAux, joinComma, serverTimingToken, List.enumFrom,
        getMs_eq_getMsSpec, ServerTimingDur, ServerTimingDesc, ServerTimingEnd,
        hi, String.append_assoc]
    | cons u rs =>
      have hi : i ≠ size - 1 := by simp at hsize ⊢; omega
      have hrec := ih (i + 1) size (by simp at hsize ⊢; omega)
      have hstep : serverTimingAux pfx size i (t :: u :: rs) =
          pfx ++ toString i ++ ServerTimingDur ++ getMs t.Duration ++
            ServerTimingDesc ++ t.Name ++ ServerTimingEnd ++
            (if i ≠ size - 1 then "," else "") ++
            serverTimingAux pfx size (i + 1) (u :: rs) := rfl
      rw [hstep, hrec, if_pos hi]
      simp [joinComma, List.enumFrom, serverTimingToken, getMs_eq_getMsSpec,
        ServerTimingDur, ServerTimingDesc, ServerTimingEnd, String.append_assoc]

/-- C6: `ServerTiming` produces the comma-joined
`{prefix}{index};dur={ms};desc="{name}"` tokens in sequence order, with the
milliseconds truncated to at most two decimal digits (`getMs` equals its
spec reading: no decimal part below ten microseconds, `"0"` below one
microsecond); the spec's two-record example renders exactly as claimed and
the empty sequence yields the empty string. -/
theorem C6_server_timing :
    (∀ (infos : List TraceInfo) (pfx : String),
        ServerTiming infos pfx = ServerTimingSpec infos pfx)
    ∧ (∀ ns : Int, getMs ns = getMsSpec ns)
    ∧ ServerTiming [⟨"a", 1500000⟩, ⟨"b", 900⟩] "t-" =
        "t-0;dur=1.50;desc=\"a\",t-1;dur=0;desc=\"b\""
    ∧ (∀ pfx : String, ServerTiming [] pfx = "") := by
  refine ⟨?_, getMs_eq_getMsSpec, by decide, fun _ => rfl⟩
  intro infos pfx
  cases infos with
  | nil => rfl
  | cons t rest =>
    have h := serverTimingAux_eq_joinComma pfx (t :: rest) 0 (t :: rest).length
      (by simp)
    simp only [ServerTiming, ServerTimingSpec, List.length_cons]
    rw [if_neg (by simp)]
    simpa [List.enum] using h

/-- The head of a filtered, trimmed entry list is the find-first-with-trim
of the raw list. -/
theorem head_filter_map_find (p : String → Bool) (l : List String) :
    ((l.map trimSpace).filter p).head? =
      (l.find? (fun v => p (trimSpace v))).map trimSpace := by
  induction l with
  | nil => rfl
  | cons a t ih =>
    by_cases h : p (trimSpace a) <;> simp [List.find?_cons, h, ih]

/-- `GetClientIP` agrees with the amended (sorted-scan) reading. -/
theorem GetClientIP_eq_sortedSpec (req : Request) :
    GetClientIP req = clientIPSortedSpec req := by
  unfold GetClientIP clientIPSortedSpec
  by_cases hxff : req.xForwardedFor = ""
  · simp [hxff]
  · simp only [hxff, ne_eq, not_false_eq_true, ite_true, if_neg, ite_false,
      if_false]
    rw [head_filter_map_find]
    cases hf : (sortDesc (splitOnChar ',' req.xForwardedFor)).find?
        (fun v => !IsPrivateIP (parseIP (trimSpace v))) <;>
      simp [hf]

/-- C1 counterexample: the claim's header-order scan is refuted at
`X-Forwarded-For: 10.0.0.1, 2.2.2.2, 8.8.8.8` — the code returns
`8.8.8.8` (the reverse-sorted scan) while the first public entry in header
order is `2.2.2.2`. -/
theorem C1_client_ip_counterexample :
    GetClientIP reqCx = "8.8.8.8"
    ∧ clientIPHeaderOrder reqCx = "2.2.2.2"
    ∧ GetClientIP reqCx ≠ clientIPHeaderOrder reqCx := by
  refine ⟨by decide, by decide, by decide⟩

/-- C1 amended: `GetClientIP` (and the memoizing `ClientIP`) scans the
forwarded entries in descending lexicographic order of the raw
comma-separated substrings — a reverse sort, not header order — and returns
the first trimmed entry outside the fixed private table; if every entry is
private it returns `X-Real-IP` when public and otherwise the transport peer
address.  The spec's two scenarios are unaffected: `"10.0.0.5, 8.8.8.8"`
yields `8.8.8.8` and `"10.0.0.5"` alone falls back to the peer address. -/
theorem C1_client_ip_amended (req : Request) (c : Context) :
    GetClientIP req = clientIPSortedSpec req
    ∧ GetClientIP reqScenA = "8.8.8.8"
    ∧ GetClientIP reqScenB = GetRemoteAddr reqScenB
    ∧ GetClientIP reqScenB = "192.0.2.9"
    ∧ (∀ req' : Request, c.Request = some req' → c.clientIP = "" →
        Context.ClientIP c =
          ({ c with clientIP := GetClientIP req' }, GetClientIP req'))
    ∧ (c.clientIP ≠ "" → Context.ClientIP c = (c, c.clientIP)) := by
  refine ⟨GetClientIP_eq_sortedSpec req, by decide, by decide, by decide,
    ?_, ?_⟩
  · intro req' hreq hmemo
    simp [Context.ClientIP, hreq, hmemo]
  · intro hmemo
    simp [Context.ClientIP, hmemo]

/-- Witness for C1 amended, at the first scenario request and a fresh
context carrying it. -/
theorem C1_client_ip_amended_witness :
    Context.ClientIP { Context.empty with Request := some reqScenA } =
      ({ Context.empty with Request := some reqScenA, clientIP := "8.8.8.8" },
        "8.8.8.8") := by
  have h := (C1_client_ip_amended reqScenA
    { Context.empty with Request := some reqScenA }).2.2.2.2.1 reqScenA rfl rfl
  have hs : GetClientIP reqScenA = "8.8.8.8" :=
    (C1_client_ip_amended reqScenA Context.empty).2.1
  rw [hs] at h
  exact h

/-- `respWriteHeader` leaves the body untouched. -/
theorem isReaderBody_respWriteHeader (c : Context) (n : Nat) :
    Context.IsReaderBody (respWriteHeader c n) = Context.IsReaderBody c := rfl

/-- Neither a handler body nor the `Next` closure ever resets the committed
flag: every write to it in the repository sets `true`. -/
theorem runStep_committed_mono (ch : Chain) :
    ∀ (f : Nat) (op : Option HProg) (st : ChainSt),
      st.ctx.Committed = true →
      (runStep f ch op st).1.ctx.Committed = true := by
  intro f
  induction f with
  | zero => intro op st h; simpa [runStep] using h
  | succ f ih =>
    intro op st h
    cases op with
    | none => simp [runStep, h]
    | some p =>
      cases p with
      | ret e => simpa [runStep] using h
      | commit k => exact ih (some k) _ rfl
      | setStatus n k => exact ih (some k) _ h
      | setBody b k => exact ih (some k) _ h
      | setBodyBuffer b k => exact ih (some k) _ h
      | next k =>
        have h1 := ih none st h
        simp only [runStep]
        exact ih _ _ h1

/-- A committed-flag projection distributes over a branch whose two arms
both commit. -/
theorem committed_of_ite {P : Prop} [Decidable P] (a b : Context × Option FBranch)
    (ha : a.1.Committed = true) (hb : b.1.Committed = true) :
    (if P then a else b).1.Committed = true := by
  split <;> assumption

/-- The status-code write of the finalizer leaves the body untouched. -/
theorem isReaderBody_statusWrite (c : Context) :
    Context.IsReaderBody (if c.StatusCode ≠ 0 then respWriteHeader c c.StatusCode else c)
      = Context.IsReaderBody c := by
  split <;> rfl

/-- The finalizer leaves the committed flag true in every branch. -/
theorem finalize_committed (ch : Chain) (c : Context) (e : Option Err) :
    (finalize ch c e).1.Committed = true := by
  unfold finalize
  by_cases hc : c.Committed
  · simp [hc]
  · simp only [hc, if_false, ite_false, Bool.false_eq_true]
    cases e with
    | some err => cases ch.errorHandler <;> simp
    | none =>
      cases c.BodyBuffer with
      | some buf => simp
      | none => exact committed_of_ite _ _ rfl rfl

/-- The finalizer's branch is the one the decision table selects: none when
already committed, otherwise exactly `branchSelect`. -/
theorem finalize_branch (ch : Chain) (c : Context) (e : Option Err) :
    (c.Committed = true → (finalize ch c e).2 = none)
    ∧ (c.Committed = false → (finalize ch c e).2 = some (branchSelect c e)) := by
  constructor
  · intro hc; simp [finalize, hc]
  · intro hc
    unfold finalize branchSelect
    simp only [hc, if_false, ite_false, Bool.false_eq_true]
    cases e with
    | some err => cases ch.errorHandler <;> simp
    | none =>
      cases hb : c.BodyBuffer with
      | some buf => simp [hb]
      | none =>
        simp only [hb, Option.isSome_none, Option.isSome_some, ite_false,
          if_false, Bool.false_eq_true]
        rw [isReaderBody_statusWrite]
        by_cases hr : Context.IsReaderBody c = true <;> simp [hr]

/-- C2: whatever ran, after the route closure's finalizer the committed
flag is true; for an uncommitted context exactly the decision-table branch
(`branchSelect`: error mapper / buffered / reader / status only) executes,
and for an already-committed context none does; the flag transitions
false→true at most once per request because no handler, `Next` call or
finalizer step ever resets it (and a committed chain is inert). -/
theorem C2_finalizer_commit (ch : Chain) :
    (∀ (fuel : Nat) (c0 : Context),
        (handleRoute fuel ch c0).1.Committed = true)
    ∧ (∀ (c : Context) (e : Option Err),
        (finalize ch c e).1.Committed = true
        ∧ (c.Committed = true → (finalize ch c e).2 = none)
        ∧ (c.Committed = false → (finalize ch c e).2 = some (branchSelect c e)))
    ∧ (∀ (f : Nat) (p : HProg) (st : ChainSt), st.ctx.Committed = true →
        (runH f ch p st).1.ctx.Committed = true)
    ∧ (∀ (f : Nat) (st : ChainSt), st.ctx.Committed = true →
        runNext f ch st = (st, none)) := by
  refine ⟨?_, ?_, ?_, ?_⟩
  · intro fuel c0
    exact finalize_committed ch _ _
  · intro c e
    exact ⟨finalize_committed ch c e, (finalize_branch ch c e).1,
      (finalize_branch ch c e).2⟩
  · intro f p st h
    exact runStep_committed_mono ch f (some p) st h
  · intro f st h
    cases f with
    | zero => rfl
    | succ f => simp [runNext, runStep, h]

/-- Witness for C2 at the empty chain: a committed context takes no
finalizer branch, an uncommitted one takes its decision-table branch, and
an extra `Next` call on a committed state is inert. -/
theorem C2_finalizer_commit_witness :
    (finalize ch0 { Context.empty with Committed := true } none).2 = none
    ∧ (finalize ch0 Context.empty none).2 =
        some (branchSelect Context.empty none)
    ∧ runNext 2 ch0 stCommitted = (stCommitted, none) :=
  ⟨((C2_finalizer_commit ch0).2.1 { Context.empty with Committed := true }
      none).2.1 rfl,
   ((C2_finalizer_commit ch0).2.1 Context.empty none).2.2 rfl,
   (C2_finalizer_commit ch0).2.2.2 2 stCommitted rfl⟩

/-- C3: for any chain of G global plus R route handlers, a `Next` call on
an already-committed response, or one whose cursor increment reaches
`G+R = maxNext`, returns nil immediately with no handler invoked (the state
— including the invocation log — is unchanged apart from the cursor
increment in the overflow case), so extra `Next` calls are total no-ops
that never re-invoke a prior handler. -/
theorem C3_next_noop (ch : Chain) (f : Nat) (st : ChainSt) :
    (st.ctx.Committed = true → runNext (f + 1) ch st = (st, none))
    ∧ (st.ctx.Committed = false → (ch.maxNext : Int) ≤ st.index + 1 →
        runNext (f + 1) ch st = ({ st with index := st.index + 1 }, none)) := by
  constructor
  · intro h
    simp [runNext, runStep, h]
  · intro h hge
    simp [runNext, runStep, h, hge]

/-- Witness for C3 at the empty chain: a committed state and an uncommitted
state whose cursor is already past `maxNext`. -/
theorem C3_next_noop_witness :
    runNext 1 ch0 stCommitted = (stCommitted, none)
    ∧ runNext 1 ch0 stOverflow = ({ stOverflow with index := 4 }, none) :=
  ⟨(C3_next_noop ch0 0 stCommitted).1 rfl,
   (C3_next_noop ch0 0 stOverflow).2 rfl (by decide)⟩

/-- C4: when the cursor increment reaches the last handler (index
`maxNext − 1`) and validators are registered, the validator pass runs
first: a failing validator aborts the chain with its error unmodified and
the final handler is never invoked (log unchanged); if every matching
validator passes, the final handler at that index runs.  Concretely, for
route `/users/:id` with a digits-only validator, `/users/42` runs the final
handler (log `[0]`, no error) while `/users/ab` never runs it (empty log)
and surfaces the validator's error. -/
theorem C4_param_validators (ch : Chain) (f : Nat) (st : ChainSt)
    (hc : st.ctx.Committed = false)
    (hv : ch.validators.isSome = true)
    (hi : st.index + 1 = (ch.maxNext : Int) - 1) :
    (∀ e : Err,
        firstValidatorError (ch.validators.getD [])
          (st.ctx.Params.getD []) = some e →
        runNext (f + 1) ch st = ({ st with index := st.index + 1 }, some e))
    ∧ (firstValidatorError (ch.validators.getD [])
          (st.ctx.Params.getD []) = none →
        runNext (f + 1) ch st =
          runH f ch (chainHandlerAt ch (st.index + 1))
            { st with index := st.index + 1, log := st.log ++ [st.index + 1] })
    ∧ (handleRoute 8 chScen ctx42).2.2.1 = none
    ∧ (handleRoute 8 chScen ctx42).2.2.2 = [0]
    ∧ (handleRoute 8 chScen ctxAb).2.2.1 =
        some (Err.plain "id should be numbers")
    ∧ (handleRoute 8 chScen ctxAb).2.2.2 = [] := by
  have hnge : ¬ ((ch.maxNext : Int) ≤ st.index + 1) := by omega
  refine ⟨?_, ?_, by decide, by decide, by decide, by decide⟩
  · intro e he
    simp [runNext, runStep, hc, hnge, hi, hv, he]
  · intro he
    simp [runNext, runStep, runH, hc, hnge, hi, hv, he]

/-- Witness for C4 at the scenario chain and the `/users/42` start state:
the validator passes and `Next` steps into the final handler. -/
theorem C4_param_validators_witness :
    runNext 3 chScen { ctx := ctx42, index := -1, log := [] } =
      runH 2 chScen (chainHandlerAt chScen 0)
        { ctx := ctx42, index := 0, log := [0] } := by
  have h := (C4_param_validators chScen 2
    { ctx := ctx42, index := -1, log := [] } rfl rfl (by decide)).2.1
    (by decide)
  simpa using h
